import Mathlib

/-!
# Verification of the typst-oxide link resolution & indexing engine

Shallow embedding of the core of the `typst-oxide` VS Code extension:
the wiki-link syntax scanner (`wikiLinkProvider.ts`, `metadataExtractor.ts`),
the path resolver (`utils/pathResolver.ts`), the document record store
(`indexing/dbService.ts`), the link index engine (`services/indexingService.ts`,
`linkDiscovery`), and the label locator (`utils/labelSearcher.ts`).

Pure functions are translated directly; the LevelDB store is modelled as an
association list keyed by file path; host-delivered inputs (file modification
times, the `typst query` metadata result, file existence) are explicit
parameters.  Text is processed at the character-list level so that every
definition evaluates inside the kernel.
-/

set_option autoImplicit false

namespace TypstOxide

/-! ## JavaScript string primitives

`String.prototype.trim`, `String.prototype.split` (single-character
separator) and `toLowerCase`, modelled on character lists. -/

/-- JavaScript whitespace (the inputs here are ASCII). -/
def isWs (c : Char) : Bool := c.isWhitespace

/-- `String.prototype.trim`: drop whitespace from both ends. -/
def jsTrim (cs : List Char) : List Char :=
  ((cs.dropWhile isWs).reverse.dropWhile isWs).reverse

/-- `String.prototype.split(sep)` with a single-character separator:
accumulator-based splitter.  `split` never returns an empty list. -/
def jsSplitAux (sep : Char) : List Char → List Char → List (List Char)
  | acc, [] => [acc.reverse]
  | acc, c :: rest =>
      if c = sep then acc.reverse :: jsSplitAux sep [] rest
      else jsSplitAux sep (c :: acc) rest

/-- `String.prototype.split(sep)` with a single-character separator. -/
def jsSplit (sep : Char) (cs : List Char) : List (List Char) :=
  jsSplitAux sep [] cs

/-- `String.prototype.toLowerCase` (ASCII). -/
def jsToLower (cs : List Char) : List Char := cs.map Char.toLower

/-! ## Positions and ranges (`vscode.Position` / `vscode.Range`) -/

/-- A zero-based line/character position (`vscode.Position`). -/
structure Pos where
  line : Nat
  character : Nat
deriving DecidableEq, Repr

/-- A source span (`vscode.Range`).  The source field `end` is a Lean keyword,
so it is called `stop` here. -/
structure SrcRange where
  start : Pos
  stop : Pos
deriving DecidableEq, Repr

/-- `TextDocument.positionAt` / the offset arithmetic used throughout the
source (`beforeMatch.split("\n").length - 1` for the line and
`offset - lastIndexOf("\n") - 1` for the column): converts a character
offset into a zero-based line/character pair. -/
def positionAt (text : List Char) (offset : Nat) : Pos :=
  let before := text.take offset
  { line := before.count '\n'
    character := (before.reverse.takeWhile (fun c => c ≠ '\n')).length }

/-! ## Query-time wiki-link scanner

`WikiLinkProvider.WIKI_LINK_REGEX = /\[\[([^|\]]+?)(?::([^|\]]+?))?(?:\|([^\]]+))?\]\]/g`.

The matcher below follows the JavaScript regex semantics for this pattern:
the path and label groups are lazy (`+?`), the two optional groups are
greedy-optional, the alias group is greedy, and the global scan finds
leftmost, non-overlapping matches, resuming after each match. -/

/-- The character class `[^|\]]` of the path and label groups. -/
def isPathChar (c : Char) : Bool := c ≠ '|' && c ≠ ']'

/-- The character class `[^\]]` of the alias group. -/
def isAliasChar (c : Char) : Bool := c ≠ ']'

/-- One raw `WIKI_LINK_REGEX` match: the untrimmed capture groups and the
match's character offsets. -/
structure RawWikiMatch where
  rawPath : List Char
  rawLabel : Option (List Char)
  rawAlias : Option (List Char)
  startIdx : Nat
  endIdx : Nat
deriving DecidableEq, Repr

/-- The regex tail `(?:\|([^\]]+))?\]\]`: an optional greedy alias group
followed by the closing brackets.  Since the alias group cannot contain `]`,
the greedy group is the maximal nonempty run of non-`]` characters and no
shorter backtracked run can succeed. -/
def tryPipe : List Char → Option (Option (List Char) × List Char)
  | '|' :: rest =>
      let c := rest.takeWhile isAliasChar
      match rest.drop c.length with
      | ']' :: ']' :: tail => if c.isEmpty then none else some (some c, tail)
      | _ => none
  | ']' :: ']' :: tail => some (none, tail)
  | _ => none

/-- The lazy label group `([^|\]]+?)` followed by the regex tail: the group
grows one character at a time (shortest first), attempting the tail after
each extension. -/
def tryLabel : List Char → List Char → Option (List Char × Option (List Char) × List Char)
  | acc, c :: rest =>
      if isPathChar c then
        let acc' := acc ++ [c]
        match tryPipe rest with
        | some (al, tail) => some (acc', al, tail)
        | none => tryLabel acc' rest
      else none
  | _, [] => none

/-- The optional label group `(?::([^|\]]+?))?` followed by the regex tail.
The group is greedy-optional: if the input starts with `:` the engine first
tries to match the group, and only on failure skips it. -/
def tryCont (cs : List Char) :
    Option (Option (List Char) × Option (List Char) × List Char) :=
  match cs with
  | ':' :: rest =>
      match tryLabel [] rest with
      | some (lb, al, tail) => some (some lb, al, tail)
      | none => (tryPipe cs).map fun p => (none, p.1, p.2)
  | _ => (tryPipe cs).map fun p => (none, p.1, p.2)

/-- The lazy path group `([^|\]]+?)` followed by the rest of the pattern:
grows one character at a time, attempting the continuation after each
extension. -/
def tryPath : List Char → List Char → Option (List Char × Option (List Char) × Option (List Char) × List Char)
  | acc, c :: rest =>
      if isPathChar c then
        let acc' := acc ++ [c]
        match tryCont rest with
        | some (lb, al, tail) => some (acc', lb, al, tail)
        | none => tryPath acc' rest
      else none
  | _, [] => none

/-- Attempt a `WIKI_LINK_REGEX` match at the head of the input: the literal
`[[` followed by the groups and `]]`.  Returns the three groups and the
remaining input after the match. -/
def matchWikiAt : List Char → Option (List Char × Option (List Char) × Option (List Char) × List Char)
  | '[' :: '[' :: rest => tryPath [] rest
  | _ => none

/-- The global scan loop (`while ((match = WIKI_LINK_REGEX.exec(text)) !== null)`):
leftmost matches, resuming after the end of each match.  The fuel argument is
the remaining input length; every step consumes at least one character. -/
def scanWikiAux : Nat → List Char → Nat → List RawWikiMatch
  | 0, _, _ => []
  | _ + 1, [], _ => []
  | fuel + 1, c :: rest, off =>
      match matchWikiAt (c :: rest) with
      | some (p, lb, al, tail) =>
          let len := (c :: rest).length - tail.length
          { rawPath := p, rawLabel := lb, rawAlias := al,
            startIdx := off, endIdx := off + len } :: scanWikiAux fuel tail (off + len)
      | none => scanWikiAux fuel rest (off + 1)

/-- All `WIKI_LINK_REGEX` matches of a text, in order. -/
def scanWikiLinks (text : List Char) : List RawWikiMatch :=
  scanWikiAux text.length text 0

/-- One entry of `WikiLinkProvider.parseWikiLinks`: the trimmed groups, with
absent groups defaulted to the empty string, and the full-match range.
The source field `alias` is a Lean keyword, so it is called `aliasText`. -/
structure ParsedWikiLink where
  filePath : String
  label : String
  aliasText : String
  range : SrcRange
deriving DecidableEq, Repr

/-- `WikiLinkProvider.parseWikiLinks`: map every regex match to its trimmed
decomposition.  `match[2] ? match[2].trim() : ""` — the raw group is a
nonempty string whenever present, hence truthy. -/
def parseWikiLinks (text : List Char) : List ParsedWikiLink :=
  (scanWikiLinks text).map fun m =>
    { filePath := String.mk (jsTrim m.rawPath)
      label := match m.rawLabel with
        | some l => String.mk (jsTrim l)
        | none => ""
      aliasText := match m.rawAlias with
        | some a => String.mk (jsTrim a)
        | none => ""
      range := { start := positionAt text m.startIdx, stop := positionAt text m.endIdx } }

/-! ## Index-time wiki-link extraction

`MetadataExtractor.extractWikilinks` scans with the simpler regex
`/\[\[([^\]]+)\]\]/g` and then decomposes the inner content with
`split(":")` and `split("|")`. -/

/-- One raw `/\[\[([^\]]+)\]\]/` match: the inner group and its offsets. -/
structure RawExtractMatch where
  inner : List Char
  startIdx : Nat
  endIdx : Nat
deriving DecidableEq, Repr

/-- Attempt a `/\[\[([^\]]+)\]\]/` match at the head of the input.  The greedy
group `([^\]]+)` is the maximal nonempty run of non-`]` characters; it must be
followed by `]]`, and no shorter backtracked run can succeed because the
character after a shorter run is not `]`. -/
def matchExtractAt : List Char → Option (List Char × List Char)
  | '[' :: '[' :: rest =>
      let inner := rest.takeWhile (fun c => c ≠ ']')
      if inner.isEmpty then none
      else
        match rest.drop inner.length with
        | ']' :: ']' :: tail => some (inner, tail)
        | _ => none
  | _ => none

/-- Global scan loop for the extraction regex (leftmost, non-overlapping). -/
def scanExtractAux : Nat → List Char → Nat → List RawExtractMatch
  | 0, _, _ => []
  | _ + 1, [], _ => []
  | fuel + 1, c :: rest, off =>
      match matchExtractAt (c :: rest) with
      | some (inner, tail) =>
          let len := (c :: rest).length - tail.length
          { inner := inner, startIdx := off, endIdx := off + len }
            :: scanExtractAux fuel tail (off + len)
      | none => scanExtractAux fuel rest (off + 1)

/-- All `/\[\[([^\]]+)\]\]/` matches of a text, in order. -/
def scanExtract (text : List Char) : List RawExtractMatch :=
  scanExtractAux text.length text 0

/-- One entry of `MetadataExtractor.extractWikilinks`.  The source field
`alias` is a Lean keyword, so it is called `aliasText`. -/
structure ExtractedWikiLink where
  targetFile : String
  label : Option String
  aliasText : Option String
  range : SrcRange
deriving DecidableEq, Repr

/-- The `split(":")` / `split("|")` decomposition of one match's inner content,
as written in `extractWikilinks`:
`parts = linkContent.split(":")`; `filePart = parts[0]`;
`labelPart = parts.length > 1 ? parts[1] : undefined`;
if `labelPart` is truthy (a nonempty string), `labelParts = labelPart.split("|")`,
`label = labelParts[0].trim()`,
`alias = labelParts.length > 1 ? labelParts[1].trim() : undefined`. -/
def extractDecompose (linkContent : List Char) : String × Option String × Option String :=
  let parts := jsSplit ':' linkContent
  let filePart := parts.headD []
  let labelPart : Option (List Char) :=
    match parts with
    | _ :: p :: _ => some p
    | _ => none
  match labelPart with
  | some lp =>
      if lp.isEmpty then (String.mk (jsTrim filePart), none, none)
      else
        let labelParts := jsSplit '|' lp
        (String.mk (jsTrim filePart), some (String.mk (jsTrim (labelParts.headD []))),
          match labelParts with
          | _ :: a :: _ => some (String.mk (jsTrim a))
          | _ => none)
  | none => (String.mk (jsTrim filePart), none, none)

/-- `MetadataExtractor.extractWikilinks`: scan with `/\[\[([^\]]+)\]\]/g` and
decompose each match, recording the match's line/character range (the source's
`split("\n").length - 1` / `lastIndexOf("\n")` arithmetic is `positionAt`). -/
def extractWikilinks (content : List Char) : List ExtractedWikiLink :=
  (scanExtract content).map fun m =>
    let d := extractDecompose m.inner
    { targetFile := d.1
      label := d.2.1
      aliasText := d.2.2
      range := { start := positionAt content m.startIdx
                 stop := positionAt content m.endIdx } }

end TypstOxide

namespace TypstOxide

/-! ## Path resolver (`utils/pathResolver.ts` over Node's `path.posix`)

`vscode.Uri` values are identified with their `fsPath` strings.  The Node
`path` functions are modelled segment-wise, as the posix implementation
computes them. -/

/-- `path.isAbsolute` (posix): the path starts with `/`. -/
def isAbsolute (p : String) : Bool :=
  match p.toList with
  | '/' :: _ => true
  | _ => false

/-- The `/`-separated segment view of a path. -/
def splitSlash (p : String) : List String :=
  (jsSplit '/' p.toList).map String.mk

/-- Join segments with `/` separators. -/
def joinSegs : List String → String
  | [] => ""
  | [s] => s
  | s :: rest => s ++ "/" ++ joinSegs rest

/-- Render normalized segments as an absolute path. -/
def joinAbs (segs : List String) : String := "/" ++ joinSegs segs

/-- Node posix normalization of an absolute path's segment list: empty and
`.` segments vanish, `..` pops the last kept segment (and is dropped at the
root). -/
def normSegs (segs : List String) : List String :=
  segs.foldl
    (fun acc s =>
      if s = "" ∨ s = "." then acc
      else if s = ".." then acc.dropLast
      else acc ++ [s]) []

/-- Node `path.posix.resolve(dir, target)` for an absolute `dir`: an absolute
`target` is normalized on its own, otherwise `dir ++ "/" ++ target` is
normalized. -/
def resolvePosix (dir target : String) : String :=
  if isAbsolute target then joinAbs (normSegs (splitSlash target))
  else joinAbs (normSegs (splitSlash (dir ++ "/" ++ target)))

/-- Node `path.posix.dirname`, for inputs without a trailing slash: the part
before the last `/`, or `.` when there is none, or `/` at the root. -/
def dirname (p : String) : String :=
  let cs := p.toList
  let tailLen := (cs.reverse.takeWhile (fun c => c ≠ '/')).length
  if tailLen = cs.length then "."
  else if cs.length - tailLen = 1 then "/"
  else String.mk (cs.take (cs.length - tailLen - 1))

/-- `PathResolver.resolveFilePath`: an absolute target is used as-is
(`vscode.Uri.file` performs no normalization); a relative target is resolved
with `path.resolve` against the directory of the current document. -/
def resolveFilePath (currentDocumentPath targetPath : String) : String :=
  if isAbsolute targetPath then targetPath
  else resolvePosix (dirname currentDocumentPath) targetPath

/-- `PathResolver.ensureTypstExtension`: append `.typ` unless the path
already ends with it. -/
def ensureTypstExtension (filePath : String) : String :=
  if ".typ".toList.isSuffixOf filePath.toList then filePath
  else filePath ++ ".typ"

/-- Drop the common prefix of two segment lists (the common-ancestor step of
`path.posix.relative`). -/
def dropCommon : List String → List String → List String × List String
  | a :: as, b :: bs => if a = b then dropCommon as bs else (a :: as, b :: bs)
  | as, bs => (as, bs)

/-- Node `path.posix.relative(from, to)` for absolute arguments: one `..` per
remaining `from` segment, then the remaining `to` segments. -/
def relativePosix (f t : String) : String :=
  let fs := normSegs (splitSlash f)
  let ts := normSegs (splitSlash t)
  let rem := dropCommon fs ts
  joinSegs (List.replicate rem.1.length ".." ++ rem.2)

/-- `vscode.workspace.getWorkspaceFolder(uri)` returns the workspace folder
when the uri lies under the workspace root; modelled as a segment-prefix
test against the workspace root passed explicitly. -/
def inWorkspace (wsRoot p : String) : Bool :=
  (normSegs (splitSlash wsRoot)).isPrefixOf (normSegs (splitSlash p))

/-- `PathResolver.getWorkspaceRelativePath`: `path.relative(workspaceRoot,
fsPath)` when the uri lies in the workspace, otherwise the raw `fsPath`. -/
def getWorkspaceRelativePath (wsRoot p : String) : String :=
  if inWorkspace wsRoot p then relativePosix wsRoot p else p

end TypstOxide

namespace TypstOxide

/-! ## Label and heading extraction

Explicit labels use the regex `/<([^<>\s]+)>/g` (both in
`MetadataExtractor.extractLabels` and in `LabelSearcher.findLabel`);
headings use `/^(=+)\s+(.+)$/` (per line in `extractHeadings`, with the `m`
flag in `extractLabels`); comments use `/^\s*\/\/\s*(.+)$/gm`. -/

/-- The character class `[^<>\s]` of the explicit-label name group. -/
def isTagChar (c : Char) : Bool := c ≠ '<' && c ≠ '>' && !(isWs c)

/-- One `/<([^<>\s]+)>/` match: the name group and the match offset. -/
structure RawTagMatch where
  name : List Char
  startIdx : Nat
deriving DecidableEq, Repr

/-- Attempt a `/<([^<>\s]+)>/` match at the head of the input: `<`, a maximal
nonempty run of name characters (the greedy group cannot backtrack since its
class excludes `>`), then `>`. -/
def matchTagAt : List Char → Option (List Char × List Char)
  | '<' :: rest =>
      let name := rest.takeWhile isTagChar
      if name.isEmpty then none
      else
        match rest.drop name.length with
        | '>' :: tail => some (name, tail)
        | _ => none
  | _ => none

/-- Global scan loop for the explicit-label regex. -/
def scanTagsAux : Nat → List Char → Nat → List RawTagMatch
  | 0, _, _ => []
  | _ + 1, [], _ => []
  | fuel + 1, c :: rest, off =>
      match matchTagAt (c :: rest) with
      | some (name, tail) =>
          let len := (c :: rest).length - tail.length
          { name := name, startIdx := off } :: scanTagsAux fuel tail (off + len)
      | none => scanTagsAux fuel rest (off + 1)

/-- All `/<([^<>\s]+)>/` matches of a text, in order. -/
def scanTags (text : List Char) : List RawTagMatch :=
  scanTagsAux text.length text 0

/-- Number of newlines before an offset: the source's
`beforeMatch.split("\n").length - 1`. -/
def lineIndexAt (text : List Char) (off : Nat) : Nat :=
  (text.take off).count '\n'

/-- Position of an explicit-label match as computed in the source:
`lineIndex` of the `<`, and `charIndex = match.index - lineStart + 1`
("+1 to position after `<`"). -/
def labelPosOf (text : List Char) (idx : Nat) : Pos :=
  let p := positionAt text idx
  { line := p.line, character := p.character + 1 }

/-- Attempt a `/^(=+)\s+(.+)$/` match at a line start (also used for the `m`
flag version): the `=` run, at least one whitespace character, then the
maximal nonempty run of non-newline characters.  With the `m` flag the greedy
`\s+` may cross line ends; when the text group would be empty the engine
backs `\s+` off to its last non-newline character, which then forms the text
group by itself.  Returns `(match[1], match[2], match length)`. -/
def matchHeadingGm (cs : List Char) : Option (List Char × List Char × Nat) :=
  let eqs := cs.takeWhile (fun c => c = '=')
  if eqs.isEmpty then none
  else
    let rest := cs.drop eqs.length
    let ws := rest.takeWhile isWs
    if ws.isEmpty then none
    else
      let after := rest.drop ws.length
      let m2 := after.takeWhile (fun c => c ≠ '\n')
      if !m2.isEmpty then some (eqs, m2, eqs.length + ws.length + m2.length)
      else
        match ws.reverse.dropWhile (fun c => c = '\n') with
        | l :: _ :: restRev => some (eqs, [l], eqs.length + restRev.length + 2)
        | _ => none

/-- Skip to the start of the next line (used to advance a `^`-anchored
multiline scan). -/
def dropLine (cs : List Char) (off : Nat) : List Char × Nat :=
  let k := (cs.takeWhile (fun c => c ≠ '\n')).length
  (cs.drop (k + 1), off + k + 1)

/-- One `/^(=+)\s+(.+)$/gm` match: the two groups and the match offset (a
line start, since the pattern is `^`-anchored). -/
structure HeadingGmMatch where
  eqs : List Char
  m2 : List Char
  off : Nat
deriving DecidableEq, Repr

/-- Global scan loop for `/^(=+)\s+(.+)$/gm`: try each line start, resuming
after a match's end (the next `^` position). -/
def scanHeadingsGmAux : Nat → List Char → Nat → List HeadingGmMatch
  | 0, _, _ => []
  | _ + 1, [], _ => []
  | fuel + 1, cs, off =>
      match matchHeadingGm cs with
      | some (eqs, m2, len) =>
          let p := dropLine (cs.drop len) (off + len)
          { eqs := eqs, m2 := m2, off := off } :: scanHeadingsGmAux fuel p.1 p.2
      | none =>
          let p := dropLine cs off
          scanHeadingsGmAux fuel p.1 p.2

/-- All `/^(=+)\s+(.+)$/gm` matches of a text. -/
def scanHeadingsGm (text : List Char) : List HeadingGmMatch :=
  scanHeadingsGmAux text.length text 0

/-- One `/^\s*\/\/\s*(.+)$/gm` match: the content group and the match offset
(the line start where `^` matched, before the leading whitespace). -/
structure CommentGmMatch where
  m1 : List Char
  off : Nat
deriving DecidableEq, Repr

/-- Attempt a `/^\s*\/\/\s*(.+)$/m` match at a line start.  The first `\s*`
must reach `//` exactly at the end of its maximal run (backing off leaves a
whitespace character where `/` is required); the second `\s*` backs off to
its last non-newline character when the content group would otherwise be
empty.  Returns `(match[1], match length)`. -/
def matchCommentGm (cs : List Char) : Option (List Char × Nat) :=
  let ws1 := cs.takeWhile isWs
  match cs.drop ws1.length with
  | '/' :: '/' :: r2 =>
      let ws2 := r2.takeWhile isWs
      let after := r2.drop ws2.length
      let m1 := after.takeWhile (fun c => c ≠ '\n')
      if !m1.isEmpty then some (m1, ws1.length + 2 + ws2.length + m1.length)
      else
        match ws2.reverse.dropWhile (fun c => c = '\n') with
        | l :: restRev => some ([l], ws1.length + 2 + restRev.length + 1)
        | [] => none
  | _ => none

/-- Global scan loop for `/^\s*\/\/\s*(.+)$/gm`. -/
def scanCommentsGmAux : Nat → List Char → Nat → List CommentGmMatch
  | 0, _, _ => []
  | _ + 1, [], _ => []
  | fuel + 1, cs, off =>
      match matchCommentGm cs with
      | some (m1, len) =>
          let p := dropLine (cs.drop len) (off + len)
          { m1 := m1, off := off } :: scanCommentsGmAux fuel p.1 p.2
      | none =>
          let p := dropLine cs off
          scanCommentsGmAux fuel p.1 p.2

/-- All `/^\s*\/\/\s*(.+)$/gm` matches of a text. -/
def scanCommentsGm (text : List Char) : List CommentGmMatch :=
  scanCommentsGmAux text.length text 0

/-- The `type` discriminator of a stored label
(`"label" | "heading" | "comment"`). -/
inductive LabelType
  | label
  | heading
  | comment
deriving DecidableEq, Repr

/-- A stored label entry (`Label` in `dbService.ts`). -/
structure DbLabel where
  name : String
  filePath : String
  position : Pos
  type : LabelType
deriving DecidableEq, Repr

/-- `MetadataExtractor.extractLabels`: explicit `<name>` labels, then
heading-derived labels (`charIndex = match[1].length + 1`), then
comment-derived labels.  For comments the source computes
`content.substring(lineStart, match.index).indexOf("//") + lineStart + 2`;
since the `^`-anchored match starts exactly at `lineStart` the substring is
empty, `indexOf` yields `-1`, and the stored character is the absolute line
start offset plus one. -/
def extractLabels (content : List Char) (filePath : String) : List DbLabel :=
  ((scanTags content).map fun m =>
    { name := String.mk m.name, filePath := filePath,
      position := labelPosOf content m.startIdx, type := LabelType.label })
  ++ ((scanHeadingsGm content).map fun h =>
    { name := String.mk (jsTrim h.m2), filePath := filePath,
      position := { line := lineIndexAt content h.off, character := h.eqs.length + 1 },
      type := LabelType.heading })
  ++ ((scanCommentsGm content).map fun cmt =>
    { name := String.mk (jsTrim cmt.m1), filePath := filePath,
      position := { line := lineIndexAt content cmt.off, character := cmt.off + 1 },
      type := LabelType.comment })

/-- A stored heading entry (`Heading` in `dbService.ts`). -/
structure DbHeading where
  text : String
  level : Nat
  filePath : String
  position : Pos
deriving DecidableEq, Repr

/-- Per-line loop of `MetadataExtractor.extractHeadings`
(`lines.forEach` with `/^(=+)\s+(.+)$/` on each line). -/
def extractHeadingsAux (filePath : String) : Nat → List (List Char) → List DbHeading
  | _, [] => []
  | i, l :: rest =>
      match matchHeadingGm l with
      | some (eqs, m2, _) =>
          { text := String.mk (jsTrim m2), level := eqs.length, filePath := filePath,
            position := { line := i, character := eqs.length + 1 } }
            :: extractHeadingsAux filePath (i + 1) rest
      | none => extractHeadingsAux filePath (i + 1) rest

/-- `MetadataExtractor.extractHeadings`. -/
def extractHeadings (content : List Char) (filePath : String) : List DbHeading :=
  extractHeadingsAux filePath 0 (jsSplit '\n' content)

end TypstOxide

namespace TypstOxide

/-! ## Label locator (`utils/labelSearcher.ts`) -/

/-- `LabelSearchResult` from `labelSearcher.ts`. -/
structure LabelSearchResult where
  found : Bool
  position : Option Pos := none
  line : Option String := none
deriving DecidableEq, Repr

/-- First index at which `pat` occurs as a sublist (`String.prototype.indexOf`). -/
def indexOfSub : List Char → List Char → Option Nat
  | pat, [] => if pat.isEmpty then some 0 else none
  | pat, c :: rest =>
      if pat.isPrefixOf (c :: rest) then some 0
      else (indexOfSub pat rest).map (· + 1)

/-- Attempt the line-anchored `/^(\s*=+\s*)(.+)$/` of
`LabelSearcher.findHeading` on a single line: leading whitespace, a nonempty
`=` run, trailing whitespace (backed off by one character when the text group
would be empty), then the nonempty remainder.  Returns `(match[1], match[2])`. -/
def matchSearcherHeading (line : List Char) : Option (List Char × List Char) :=
  let ws1 := line.takeWhile isWs
  let r1 := line.drop ws1.length
  let eqs := r1.takeWhile (fun c => c = '=')
  if eqs.isEmpty then none
  else
    let r2 := r1.drop eqs.length
    let ws2 := r2.takeWhile isWs
    let m2 := r2.drop ws2.length
    if !m2.isEmpty then some (ws1 ++ eqs ++ ws2, m2)
    else
      match ws2.reverse with
      | l :: _ => some (ws1 ++ eqs ++ ws2.dropLast, [l])
      | [] => none

/-- `LabelSearcher.findHeading`: heading text compared after trimming,
case-insensitively; position is `(lineIndex, match[1].length)`. -/
def searcherFindHeading (line : List Char) (lineIndex : Nat) (label : List Char) :
    Option (Pos × List Char) :=
  match matchSearcherHeading line with
  | some (m1, m2) =>
      if jsToLower (jsTrim m2) = jsToLower label then
        some ({ line := lineIndex, character := m1.length }, line)
      else none
  | none => none

/-- Attempt the line-anchored `/^(\s*\/\/\s*)(.+)$/` of
`LabelSearcher.findComment` on a single line. -/
def matchSearcherLineComment (line : List Char) : Option (List Char × List Char) :=
  let ws1 := line.takeWhile isWs
  match line.drop ws1.length with
  | '/' :: '/' :: r2 =>
      let ws2 := r2.takeWhile isWs
      let m2 := r2.drop ws2.length
      if !m2.isEmpty then some (ws1 ++ '/' :: '/' :: ws2, m2)
      else
        match ws2.reverse with
        | l :: _ => some (ws1 ++ '/' :: '/' :: ws2.dropLast, [l])
        | [] => none
  | _ => none

/-- Attempt the block-comment regex `/\/\*\s*([^*]+)\s*\*\//` at the head of
the input: `/*`, a maximal nonempty run of non-`*` characters, then `*/`.
The content group is that run without its leading whitespace (when the run is
all whitespace, the greedy `\s*` backs off to leave its last character to the
group).  Returns `match[1]`. -/
def matchBlockCommentAt : List Char → Option (List Char)
  | '/' :: '*' :: rest =>
      let run := rest.takeWhile (fun c => c ≠ '*')
      if run.isEmpty then none
      else
        match rest.drop run.length with
        | '*' :: '/' :: _ =>
            let ws1 := run.takeWhile isWs
            let g := run.drop ws1.length
            if g.isEmpty then
              match run.reverse with
              | l :: _ => some [l]
              | [] => none
            else some g
        | _ => none
  | _ => none

/-- Leftmost block-comment match in a line. -/
def findBlockComment : Nat → List Char → Option (List Char)
  | 0, _ => none
  | _ + 1, [] => none
  | fuel + 1, c :: rest =>
      match matchBlockCommentAt (c :: rest) with
      | some m1 => some m1
      | none => findBlockComment fuel rest

/-- `LabelSearcher.findComment`: first the line-comment regex (position at
`match[1].length`), then the block-comment regex (position at
`line.indexOf("/*") + 2`); both compared after trimming, case-insensitively. -/
def searcherFindComment (line : List Char) (lineIndex : Nat) (label : List Char) :
    Option (Pos × List Char) :=
  let lineHit :=
    match matchSearcherLineComment line with
    | some (m1, m2) =>
        if jsToLower (jsTrim m2) = jsToLower label then
          some ({ line := lineIndex, character := m1.length }, line)
        else none
    | none => none
  match lineHit with
  | some h => some h
  | none =>
      match findBlockComment line.length line with
      | some m1 =>
          if jsToLower (jsTrim m1) = jsToLower label then
            match indexOfSub ['/', '*'] line with
            | some i => some ({ line := lineIndex, character := i + 2 }, line)
            | none => none
          else none
      | none => none

/-- `LabelSearcher.findTextMatch`: case-insensitive raw substring search. -/
def searcherFindTextMatch (line : List Char) (lineIndex : Nat) (label : List Char) :
    Option (Pos × List Char) :=
  match indexOfSub (jsToLower label) (jsToLower line) with
  | some i => some ({ line := lineIndex, character := i }, line)
  | none => none

/-- One strategy pass of `findLabel`: apply the strategy to every line in
order, first hit wins. -/
def strategyPass (f : List Char → Nat → Option (Pos × List Char)) :
    Nat → List (List Char) → Option (Pos × List Char)
  | _, [] => none
  | i, l :: rest =>
      match f l i with
      | some r => some r
      | none => strategyPass f (i + 1) rest

/-- The explicit-label phase of `findLabel`: scan every `/<([^<>\s]+)>/g`
match of the whole text and return the first whose name equals the label
(case-sensitive `===`). -/
def findExplicitLabel (text : List Char) (label : List Char) : Option RawTagMatch :=
  (scanTags text).find? (fun m => m.name = label)

/-- `LabelSearcher.findLabel`: the explicit-label scan over the whole
document runs first; only when it finds nothing are the heading, comment and
text-match strategies tried, each over all lines in order. -/
def findLabel (text label : String) : LabelSearchResult :=
  let cs := text.toList
  let lines := jsSplit '\n' cs
  match findExplicitLabel cs label.toList with
  | some m =>
      let p := labelPosOf cs m.startIdx
      { found := true, position := some p,
        line := some (String.mk (lines.getD p.line [])) }
  | none =>
      match strategyPass (fun l i => searcherFindHeading l i label.toList) 0 lines with
      | some r => { found := true, position := some r.1, line := some (String.mk r.2) }
      | none =>
          match strategyPass (fun l i => searcherFindComment l i label.toList) 0 lines with
          | some r => { found := true, position := some r.1, line := some (String.mk r.2) }
          | none =>
              match strategyPass (fun l i => searcherFindTextMatch l i label.toList) 0 lines with
              | some r => { found := true, position := some r.1, line := some (String.mk r.2) }
              | none => { found := false }

end TypstOxide

namespace TypstOxide

/-! ## Document record store (`indexing/dbService.ts`)

The LevelDB keyspace is an association list with unique keys; the
`DatabaseService` handle is `Option Db` (`this.db`, which is `null` before
`initialize` and after `dispose`).  A thrown JavaScript exception is
modelled as `Except.error` carrying the error message. -/

/-- A stored wiki-link (`WikiLink` in `dbService.ts`).  The source field
`alias` is a Lean keyword, so it is called `aliasText`. -/
structure DbWikiLink where
  sourceFile : String
  targetFile : String
  label : Option String
  aliasText : Option String
  range : SrcRange
deriving DecidableEq, Repr

/-- The `typst query` metadata mapping.  The core reads only its `alias`
entry (`metadata?.alias`, kept as the record's aliases when it is an array);
all other keys never influence the index, so the mapping is modelled by that
single optional field.  The source field `alias` is a Lean keyword, so it is
called `aliasList`. -/
structure TypstMetadata where
  aliasList : Option (List String)
deriving DecidableEq, Repr

/-- A document record (`FileMetadata` in `dbService.ts`). -/
structure FileMetadata where
  filePath : String
  lastModified : Nat
  metadata : TypstMetadata
  aliases : List String
  wikilinks : List DbWikiLink
  labels : List DbLabel
  headings : List DbHeading
deriving DecidableEq, Repr

/-- The LevelDB keyspace. -/
abbrev Db := List (String × FileMetadata)

/-- `db.put(key, value)`: replace the entry when the key is present,
otherwise append it (keys are unique, so replacing the first occurrence is
the LevelDB behaviour). -/
def putKV : Db → String → FileMetadata → Db
  | [], k, v => [(k, v)]
  | e :: rest, k, v => if e.1 = k then (k, v) :: rest else e :: putKV rest k v

/-- Lookup of a key's stored value. -/
def lookupKV : Db → String → Option FileMetadata
  | [], _ => none
  | e :: rest, k => if e.1 = k then some e.2 else lookupKV rest k

/-- `db.del(key)`. -/
def delKV (db : Db) (k : String) : Db := db.filter (fun e => e.1 ≠ k)

/-- `db.get(key)` at the LevelDB boundary: a missing key rejects with the
code `LEVEL_NOT_FOUND`. -/
def levelGet (db : Db) (k : String) : Except String FileMetadata :=
  match lookupKV db k with
  | some v => Except.ok v
  | none => Except.error "LEVEL_NOT_FOUND"

/-- `DatabaseService.upsertFile`: throws when the database handle is null,
otherwise `put(fileData.filePath, fileData)`. -/
def svcUpsertFile : Option Db → FileMetadata → Except String Db
  | none, _ => Except.error "Database not initialized"
  | some db, fileData => Except.ok (putKV db fileData.filePath fileData)

/-- `DatabaseService.getFile`: throws when the database handle is null;
otherwise `db.get` with only the `LEVEL_NOT_FOUND` rejection caught and
translated to `null`, every other error rethrown. -/
def svcGetFile : Option Db → String → Except String (Option FileMetadata)
  | none, _ => Except.error "Database not initialized"
  | some db, filePath =>
      match levelGet db filePath with
      | Except.ok v => Except.ok (some v)
      | Except.error e =>
          if e = "LEVEL_NOT_FOUND" then Except.ok none else Except.error e

/-- `DatabaseService.deleteFile`: throws when the database handle is null,
otherwise `db.del(filePath)`. -/
def svcDeleteFile : Option Db → String → Except String Db
  | none, _ => Except.error "Database not initialized"
  | some db, filePath => Except.ok (delKV db filePath)

/-- `DatabaseService.isFileIndexed`: `try { await this.getFile(filePath);
return true } catch { return false }`. -/
def svcIsFileIndexed (s : Option Db) (filePath : String) : Bool :=
  match svcGetFile s filePath with
  | Except.ok _ => true
  | Except.error _ => false

/-- `DatabaseService.getAllFiles` on an initialized database. -/
def getAllFiles (db : Db) : List FileMetadata := db.map (fun e => e.2)

/-- `DatabaseService.getFilesWithWikilinksTo` on an initialized database:
linear scan keeping the records having some wikilink whose stored
`targetFile` string equals the query verbatim
(`link.targetFile === targetFile`). -/
def getFilesWithWikilinksTo (db : Db) (targetFile : String) : List FileMetadata :=
  (getAllFiles db).filter (fun v => v.wikilinks.any (fun l => l.targetFile = targetFile))

/-- `DatabaseService.getLabelsInFile` on an initialized database:
`file ? file.labels : []`. -/
def getLabelsInFile (db : Db) (filePath : String) : List DbLabel :=
  match lookupKV db filePath with
  | some f => f.labels
  | none => []

/-- `DatabaseService.getLastModified` on an initialized database:
`file ? file.lastModified : null`. -/
def getLastModified (db : Db) (filePath : String) : Option Nat :=
  (lookupKV db filePath).map (fun f => f.lastModified)

/-! ## Link index engine (`services/indexingService.ts`, `LinkDiscovery`) -/

/-- The record upserted by `IndexingService.updateFileInDatabase` for a
file: `extractMetadata` reads the file's text, its `mtime` and the
`typst query` mapping (the latter two are host inputs, passed here as
parameters), and the service maps the result onto the stored shape, setting
every wikilink's `sourceFile` to the file and keeping `metadata.alias` when
it is an array. -/
def extractedRecord (filePath : String) (mtime : Nat) (content : List Char)
    (meta : TypstMetadata) : FileMetadata :=
  { filePath := filePath
    lastModified := mtime
    metadata := meta
    aliases :=
      match meta.aliasList with
      | some l => l
      | none => []
    wikilinks := (extractWikilinks content).map fun link =>
      { sourceFile := filePath, targetFile := link.targetFile, label := link.label,
        aliasText := link.aliasText, range := link.range }
    labels := extractLabels content filePath
    headings := extractHeadings content filePath }

/-- `IndexingService.updateFileInDatabase` on an initialized database with a
successful extraction: upsert the extracted record. -/
def updateFileInDatabase (db : Db) (filePath : String) (mtime : Nat)
    (content : List Char) (meta : TypstMetadata) : Db :=
  putKV db filePath (extractedRecord filePath mtime content meta)

/-- `IndexingService.ensureFileIndexed` on an initialized database:
`isFileIndexed` first (re-extract when false), else the
`!lastIndexed || stats.mtime > lastIndexed` staleness check.  JavaScript
falsiness makes `!lastIndexed` true both for `null` and for `0`. -/
def ensureFileIndexed (db : Db) (filePath : String) (mtime : Nat)
    (content : List Char) (meta : TypstMetadata) : Db :=
  if svcIsFileIndexed (some db) filePath then
    match getLastModified db filePath with
    | none => updateFileInDatabase db filePath mtime content meta
    | some t =>
        if t = 0 ∨ t < mtime then updateFileInDatabase db filePath mtime content meta
        else db
  else updateFileInDatabase db filePath mtime content meta

/-- A forward/backward link query result (`LinkInfo`).  The source field
`exists` is a Lean keyword, so it is called `fileExists`. -/
structure LinkInfo where
  sourceFile : String
  targetFile : String
  label : Option String
  range : SrcRange
  fileExists : Bool
  labelExists : Option Bool
deriving DecidableEq, Repr

/-- `LinkDiscovery.getForwardLinks`: read the record, resolve each stored
wikilink target (`ensureTypstExtension`, then `resolveFilePath` against the
file), probe existence (the `existingFiles` parameter models the
`PathResolver.fileExists` probe), and — only when the target exists and the
link's label is truthy — test the label against the target's stored label
names with case-sensitive `===`. -/
def getForwardLinks (db : Db) (existingFiles : List String) (filePath : String) :
    List LinkInfo :=
  match lookupKV db filePath with
  | none => []
  | some fileData =>
      fileData.wikilinks.map fun link =>
        let targetFilePath := ensureTypstExtension link.targetFile
        let targetPath := resolveFilePath filePath targetFilePath
        let targetExists := existingFiles.contains targetPath
        { sourceFile := filePath, targetFile := targetPath, label := link.label,
          range := link.range, fileExists := targetExists,
          labelExists :=
            match link.label with
            | some lb =>
                if targetExists && !lb.toList.isEmpty then
                  some ((getLabelsInFile db targetPath).any (fun l => l.name = lb))
                else none
            | none => none }

/-- `LinkDiscovery.getBackwardLinks`: the records found by
`getFilesWithWikilinksTo`, each of their wikilinks with `targetFile` equal
to the query kept, `exists` hardcoded to `true`, and truthy labels checked
against the query file's own stored labels. -/
def getBackwardLinks (db : Db) (filePath : String) : List LinkInfo :=
  ((getFilesWithWikilinksTo db filePath).map fun linkingFile =>
    (linkingFile.wikilinks.filter (fun l => l.targetFile = filePath)).map fun link =>
      { sourceFile := linkingFile.filePath, targetFile := filePath,
        label := link.label, range := link.range, fileExists := true,
        labelExists :=
          match link.label with
          | some lb =>
              if !lb.toList.isEmpty then
                some ((getLabelsInFile db filePath).any (fun l => l.name = lb))
              else none
          | none => none }).flatten

/-- Modelled from the spec's words, for the refinement comparison of
`getFilesLinkingTo`: the records having at least one outgoing wiki-link
whose target, after relative-path resolution against the record's own path
and extension normalization, equals the query path. -/
def specGetFilesLinkingTo (db : Db) (targetPath : String) : List FileMetadata :=
  (getAllFiles db).filter fun v =>
    v.wikilinks.any fun l =>
      resolveFilePath v.filePath (ensureTypstExtension l.targetFile) = targetPath

/-- Store well-formedness: every entry is keyed by its own record's
`filePath` — the only keys `upsertFile` ever writes
(`db.put(fileData.filePath, fileData)`). -/
@[reducible] def WellFormedDb (db : Db) : Prop :=
  ∀ e ∈ db, (e.2.filePath = e.1 ∧ ∀ l ∈ e.2.wikilinks, l.sourceFile = e.1)

end TypstOxide

namespace TypstOxide

/-! ## Concrete stores and inputs used by the closed theorems below -/

/-- A store holding one record, for `/ws/a.typ`, whose only outgoing link is
written `[[b]]` (stored raw target `"b"`). -/
def c1Db : Db := updateFileInDatabase [] "/ws/a.typ" 7 "[[b]]".toList ⟨none⟩

/-- The record stored in `c1Db`. -/
def c1Rec : FileMetadata := extractedRecord "/ws/a.typ" 7 "[[b]]".toList ⟨none⟩

/-- The scenario store of the forward-link claim: `/ws/b.typ` indexed from
`= Intro`, and `/ws/a.typ` indexed from `[[b:intro]]`. -/
def c5Db : Db :=
  updateFileInDatabase
    (updateFileInDatabase [] "/ws/b.typ" 5 "= Intro".toList ⟨none⟩)
    "/ws/a.typ" 7 "[[b:intro]]".toList ⟨none⟩

/-- The same scenario with the link written `[[b:Intro]]` (matching case). -/
def c5DbUpper : Db :=
  updateFileInDatabase
    (updateFileInDatabase [] "/ws/b.typ" 5 "= Intro".toList ⟨none⟩)
    "/ws/a.typ" 7 "[[b:Intro]]".toList ⟨none⟩

/-- An arbitrary record to feed the store operations. -/
def c6Rec : FileMetadata := extractedRecord "/ws/a.typ" 1 "hello".toList ⟨none⟩

/-- A two-record store where `/ws/a.typ` links to `/ws/b.typ` by its absolute
stored target, so that the backlink scan finds it before deletion. -/
def c8Db : Db :=
  updateFileInDatabase
    (updateFileInDatabase [] "/ws/b.typ" 5 "= Intro".toList ⟨none⟩)
    "/ws/a.typ" 7 "[[/ws/b.typ]]".toList ⟨none⟩

/-- The single `WIKI_LINK_REGEX` match of `[[a]]`. -/
def c4Match : RawWikiMatch :=
  { rawPath := ['a'], rawLabel := none, rawAlias := none, startIdx := 0, endIdx := 5 }

/-- A plain path segment: nonempty, not a dot segment, and without `/`.
These are the segments actual workspace paths are made of; the round-trip
theorem below is stated over them. -/
@[reducible] def CleanSeg (s : String) : Prop :=
  s ≠ "" ∧ s ≠ "." ∧ s ≠ ".." ∧ '/' ∉ s.toList

end TypstOxide

namespace TypstOxide

/-! ## Store lemmas -/

theorem lookupKV_putKV_self (db : Db) (k : String) (v : FileMetadata) :
    lookupKV (putKV db k v) k = some v := by
  induction db with
  | nil => simp [putKV, lookupKV]
  | cons e rest ih =>
      by_cases h : e.1 = k
      · simp [putKV, h, lookupKV]
      · simp [putKV, h, lookupKV, ih]

theorem putKV_putKV_self (db : Db) (k : String) (v : FileMetadata) :
    putKV (putKV db k v) k v = putKV db k v := by
  induction db with
  | nil => simp [putKV]
  | cons e rest ih =>
      by_cases h : e.1 = k
      · simp [putKV, h]
      · simp [putKV, h, ih]

theorem lookupKV_delKV_self (db : Db) (k : String) :
    lookupKV (delKV db k) k = none := by
  induction db with
  | nil => rfl
  | cons e rest ih =>
      by_cases h : e.1 = k
      · simpa [delKV, List.filter_cons, h] using ih
      · simpa [delKV, List.filter_cons, h, lookupKV] using ih

theorem svcIsFileIndexed_some (db : Db) (p : String) :
    svcIsFileIndexed (some db) p = true := by
  unfold svcIsFileIndexed svcGetFile levelGet
  cases h : lookupKV db p <;> simp [h]

theorem ensureFileIndexed_of_none (db : Db) (p : String) (m : Nat) (c : List Char)
    (meta : TypstMetadata) (h : getLastModified db p = none) :
    ensureFileIndexed db p m c meta = updateFileInDatabase db p m c meta := by
  unfold ensureFileIndexed
  simp [svcIsFileIndexed_some, h]

theorem ensureFileIndexed_of_some (db : Db) (p : String) (m t : Nat) (c : List Char)
    (meta : TypstMetadata) (h : getLastModified db p = some t) :
    ensureFileIndexed db p m c meta =
      if t = 0 ∨ t < m then updateFileInDatabase db p m c meta else db := by
  unfold ensureFileIndexed
  simp [svcIsFileIndexed_some, h]

theorem getLastModified_updateFileInDatabase (db : Db) (p : String) (m : Nat)
    (c : List Char) (meta : TypstMetadata) :
    getLastModified (updateFileInDatabase db p m c meta) p = some m := by
  unfold getLastModified updateFileInDatabase
  rw [lookupKV_putKV_self]
  rfl

theorem updateFileInDatabase_idem (db : Db) (p : String) (m : Nat) (c : List Char)
    (meta : TypstMetadata) :
    updateFileInDatabase (updateFileInDatabase db p m c meta) p m c meta =
      updateFileInDatabase db p m c meta := by
  unfold updateFileInDatabase
  exact putKV_putKV_self db p (extractedRecord p m c meta)

theorem ensureFileIndexed_updateFileInDatabase (db : Db) (p : String) (m : Nat)
    (c : List Char) (meta : TypstMetadata) :
    ensureFileIndexed (updateFileInDatabase db p m c meta) p m c meta =
      updateFileInDatabase db p m c meta := by
  rw [ensureFileIndexed_of_some _ _ _ m _ _ (getLastModified_updateFileInDatabase db p m c meta)]
  by_cases hm : m = 0 ∨ m < m
  · rw [if_pos hm]
    exact updateFileInDatabase_idem db p m c meta
  · rw [if_neg hm]

end TypstOxide

namespace TypstOxide

/-! ## Claim theorems -/

/-- C1 counterexample: with one record for `/ws/a.typ` whose link is written
`[[b]]`, the spec-side resolved-equality query for `/ws/b.typ` selects the
record, but `getFilesWithWikilinksTo` returns nothing — the code compares the
stored raw target string, not the resolved path, so the claim as stated is
false. -/
theorem C1_counterexample :
    (specGetFilesLinkingTo c1Db "/ws/b.typ").map (fun r => r.filePath) = ["/ws/a.typ"] ∧
    getFilesWithWikilinksTo c1Db "/ws/b.typ" = [] ∧
    getFilesWithWikilinksTo c1Db "/ws/b.typ" ≠ specGetFilesLinkingTo c1Db "/ws/b.typ" := by
  decide

/-- C1 (amended): `getFilesWithWikilinksTo(targetPath)` returns exactly the
records having at least one outgoing wiki-link whose stored raw `targetFile`
string equals `targetPath` verbatim — raw-text equality, with no relative
resolution and no extension normalization. -/
theorem C1_raw_target_equality (db : Db) (t : String) (r : FileMetadata) :
    r ∈ getFilesWithWikilinksTo db t ↔
      r ∈ getAllFiles db ∧ ∃ l ∈ r.wikilinks, l.targetFile = t := by
  unfold getFilesWithWikilinksTo
  rw [List.mem_filter]
  simp

/-- C1 witness: the raw-equality characterization applied to the concrete
store, where the stored raw target `"b"` is matched verbatim. -/
theorem C1_witness : c1Rec ∈ getFilesWithWikilinksTo c1Db "b" :=
  (C1_raw_target_equality c1Db "b" c1Rec).mpr (by decide)

/-- C2: on `[[target|alias]]` the index-time extraction (`split(":")`, which
never splits at `|` when no label is present) stores the raw target
`"target|alias"` with no alias, while the query-time regex parse yields
target `"target"` with alias `"alias"` — the two decompositions differ, so
index- and query-time parsing are not equivalent. -/
theorem C2_decomposition_divergence :
    (extractWikilinks "[[target|alias]]".toList).map
        (fun l => (l.targetFile, l.label, l.aliasText)) =
      [("target|alias", none, none)] ∧
    (parseWikiLinks "[[target|alias]]".toList).map
        (fun l => (l.filePath, l.label, l.aliasText)) =
      [("target", "", "alias")] ∧
    (extractWikilinks "[[target|alias]]".toList).map (fun l => l.targetFile) ≠
      (parseWikiLinks "[[target|alias]]".toList).map (fun l => l.filePath) := by
  decide

/-- C3 counterexample: source `/ws/sub/a.typ` with target `../b` resolves to
`/ws/b.typ`; the workspace-relative display path is `b.typ`; re-resolving
that display path against the same source yields `/ws/sub/b.typ`, not the
original canonical path — the round-trip claim fails for sources in a
subdirectory. -/
theorem C3_counterexample :
    resolveFilePath "/ws/sub/a.typ" (ensureTypstExtension "../b") = "/ws/b.typ" ∧
    getWorkspaceRelativePath "/ws" "/ws/b.typ" = "b.typ" ∧
    resolveFilePath "/ws/sub/a.typ"
        (getWorkspaceRelativePath "/ws"
          (resolveFilePath "/ws/sub/a.typ" (ensureTypstExtension "../b"))) =
      "/ws/sub/b.typ" ∧
    resolveFilePath "/ws/sub/a.typ"
        (getWorkspaceRelativePath "/ws"
          (resolveFilePath "/ws/sub/a.typ" (ensureTypstExtension "../b"))) ≠
      resolveFilePath "/ws/sub/a.typ" (ensureTypstExtension "../b") := by
  decide

/-- C4 counterexample: `[[ ]]` and `[[ |alias]]` each produce a parse result
whose trimmed path is the empty string — whitespace-only paths are matched
and are not excluded from the results. -/
theorem C4_counterexample :
    (parseWikiLinks "[[ ]]".toList).map (fun l => l.filePath) = [""] ∧
    (parseWikiLinks "[[ |alias]]".toList).map (fun l => (l.filePath, l.aliasText)) =
      [("", "alias")] ∧
    ¬ (∀ l ∈ parseWikiLinks "[[ ]]".toList, l.filePath ≠ "") := by
  decide

theorem tryPath_path_ne_nil (cs : List Char) :
    ∀ (acc : List Char)
      (r : List Char × Option (List Char) × Option (List Char) × List Char),
      tryPath acc cs = some r → r.1 ≠ [] := by
  induction cs with
  | nil => intro acc r h; simp [tryPath] at h
  | cons c rest ih =>
      intro acc r h
      simp only [tryPath] at h
      split at h
      · split at h
        · cases h
          simp
        · exact ih (acc ++ [c]) r h
      · exact Option.noConfusion h

theorem matchWikiAt_path_ne_nil (cs : List Char)
    (r : List Char × Option (List Char) × Option (List Char) × List Char)
    (h : matchWikiAt cs = some r) : r.1 ≠ [] := by
  unfold matchWikiAt at h
  split at h
  · exact tryPath_path_ne_nil _ [] r h
  · exact Option.noConfusion h

theorem scanWikiAux_rawPath_ne_nil (fuel : Nat) :
    ∀ (cs : List Char) (off : Nat) (m : RawWikiMatch),
      m ∈ scanWikiAux fuel cs off → m.rawPath ≠ [] := by
  induction fuel with
  | zero => intro cs off m h; simp [scanWikiAux] at h
  | succ fuel ih =>
      intro cs off m h
      cases cs with
      | nil => simp [scanWikiAux] at h
      | cons c rest =>
          rw [scanWikiAux] at h
          cases hm : matchWikiAt (c :: rest) with
          | some v =>
              obtain ⟨p, lb, al, tail⟩ := v
              rw [hm] at h
              simp only [List.mem_cons] at h
              rcases h with h | h
              · subst h
                exact matchWikiAt_path_ne_nil (c :: rest) (p, lb, al, tail) hm
              · exact ih tail _ m h
          | none =>
              rw [hm] at h
              exact ih rest _ m h

/-- C4 (amended): the scanner never produces a match whose raw (untrimmed)
path segment is empty — the regex requires at least one path character, so
`[[]]` yields no match — but whitespace-only path segments do match, and
their trimmed path is the empty string, which is not excluded from the
results. -/
theorem C4_raw_path_nonempty (text : List Char) (m : RawWikiMatch)
    (h : m ∈ scanWikiLinks text) : m.rawPath ≠ [] :=
  scanWikiAux_rawPath_ne_nil text.length text 0 m h

/-- C4 witness: the raw path of the single match of `[[a]]` is nonempty. -/
theorem C4_witness : c4Match.rawPath ≠ [] :=
  C4_raw_path_nonempty "[[a]]".toList c4Match (by decide)

/-- C5 counterexample: in the scenario — `a.typ` containing `[[b:intro]]`,
`b.typ` existing and indexed with heading `= Intro` — the forward-link query
returns one entry with `exists = true` and the correct canonical target, but
`labelExists = some false`, not `true`: the stored-label comparison
`label.name === link.label` is case-sensitive, so `"Intro" ≠ "intro"`. -/
theorem C5_counterexample :
    (getForwardLinks c5Db ["/ws/b.typ"] "/ws/a.typ").map
        (fun l => (l.targetFile, l.fileExists, l.labelExists)) =
      [("/ws/b.typ", true, some false)] ∧
    (getForwardLinks c5Db ["/ws/b.typ"] "/ws/a.typ").map (fun l => l.labelExists) ≠
      [some true] := by
  decide

/-- C5 (amended): the scenario yields exactly one entry with `exists = true`
and target `/ws/b.typ`, but `labelExists = some false` because heading-label
comparison is case-sensitive (exact `===`); writing the link `[[b:Intro]]`
(matching the heading's case) yields `labelExists = some true`. -/
theorem C5_case_sensitive_label_check :
    (getForwardLinks c5Db ["/ws/b.typ"] "/ws/a.typ").map
        (fun l => (l.targetFile, l.fileExists, l.labelExists)) =
      [("/ws/b.typ", true, some false)] ∧
    (getForwardLinks c5DbUpper ["/ws/b.typ"] "/ws/a.typ").map
        (fun l => (l.targetFile, l.fileExists, l.labelExists)) =
      [("/ws/b.typ", true, some true)] := by
  decide

/-- C6 counterexample: `upsertFile` and `getFile` on an uninitialized store
throw (`Except.error` models the thrown `Error("Database not initialized")`
crossing the public boundary) — the store does not return a result value in
this case, so the no-throw propagation claim is false. -/
theorem C6_counterexample :
    svcUpsertFile none c6Rec = Except.error "Database not initialized" ∧
    svcGetFile none "/ws/a.typ" = Except.error "Database not initialized" :=
  ⟨rfl, rfl⟩

/-- C6 (amended): every public store operation on an uninitialized store
throws `Database not initialized`; once the handle is set, `getFile` encodes
a missing key as an ok `null` result (only the `LEVEL_NOT_FOUND` rejection
is caught) and `upsertFile`/`deleteFile` return normally. -/
theorem C6_store_boundary (db : Db) (p : String) (r : FileMetadata) :
    svcGetFile none p = Except.error "Database not initialized" ∧
    svcUpsertFile none r = Except.error "Database not initialized" ∧
    svcDeleteFile none p = Except.error "Database not initialized" ∧
    svcGetFile (some db) p = Except.ok (lookupKV db p) ∧
    svcUpsertFile (some db) r = Except.ok (putKV db r.filePath r) ∧
    svcDeleteFile (some db) p = Except.ok (delKV db p) := by
  refine ⟨rfl, rfl, rfl, ?_, rfl, rfl⟩
  unfold svcGetFile levelGet
  cases h : lookupKV db p <;> simp [h]

/-- C7: indexing is idempotent — running `ensureFileIndexed` a second time
with unchanged content and unchanged modification time leaves the store
exactly as after the first run (the staleness check skips re-extraction, and
in the `mtime = 0` falsy corner the re-extracted record coincides with the
stored one), and a forced re-extraction (`updateFileInDatabase`) with
identical inputs produces a store equal to the first. -/
theorem C7_indexing_idempotent (db : Db) (p : String) (m : Nat) (c : List Char)
    (meta : TypstMetadata) :
    ensureFileIndexed (ensureFileIndexed db p m c meta) p m c meta =
        ensureFileIndexed db p m c meta ∧
      updateFileInDatabase (updateFileInDatabase db p m c meta) p m c meta =
        updateFileInDatabase db p m c meta := by
  refine ⟨?_, updateFileInDatabase_idem db p m c meta⟩
  cases h : getLastModified db p with
  | none =>
      rw [ensureFileIndexed_of_none db p m c meta h]
      exact ensureFileIndexed_updateFileInDatabase db p m c meta
  | some t =>
      rw [ensureFileIndexed_of_some db p m t c meta h]
      by_cases ht : t = 0 ∨ t < m
      · rw [if_pos ht]
        exact ensureFileIndexed_updateFileInDatabase db p m c meta
      · rw [if_neg ht]
        rw [ensureFileIndexed_of_some db p m t c meta h, if_neg ht]

/-- C8: after deleting path `P`, `getFile P` reports not-found (ok `null`),
and no backward-link result for any path `Q` has `P` as its source document —
every returned source is the file path of a surviving record, and in a
well-formed store records are keyed by their own paths. -/
theorem C8_removeDocument_postcondition (db : Db) (P Q : String)
    (hwf : WellFormedDb db) :
    svcGetFile (some (delKV db P)) P = Except.ok none ∧
    ∀ info ∈ getBackwardLinks (delKV db P) Q, info.sourceFile ≠ P := by
  constructor
  · simp [svcGetFile, levelGet, lookupKV_delKV_self]
  · intro info hinfo
    unfold getBackwardLinks at hinfo
    rw [List.mem_flatten] at hinfo
    obtain ⟨l, hl, hil⟩ := hinfo
    rw [List.mem_map] at hl
    obtain ⟨linkingFile, hlf, rfl⟩ := hl
    rw [List.mem_map] at hil
    obtain ⟨link, _hlink, rfl⟩ := hil
    unfold getFilesWithWikilinksTo at hlf
    have hmem : linkingFile ∈ getAllFiles (delKV db P) :=
      List.mem_of_mem_filter hlf
    rw [getAllFiles, List.mem_map] at hmem
    obtain ⟨e, he, rfl⟩ := hmem
    have he' := List.mem_filter.mp he
    have hkey : e.1 ≠ P := by simpa using he'.2
    have hfp : e.2.filePath = e.1 := (hwf e he'.1).1
    show e.2.filePath ≠ P
    rw [hfp]
    exact hkey

/-- C8 witness: the deletion postcondition applied to the concrete two-record
store (where `/ws/a.typ` links to `/ws/b.typ`): after deleting `/ws/a.typ`,
its record is gone and no backlink of `/ws/b.typ` originates from it. -/
theorem C8_witness :
    svcGetFile (some (delKV c8Db "/ws/a.typ")) "/ws/a.typ" = Except.ok none ∧
    ∀ info ∈ getBackwardLinks (delKV c8Db "/ws/a.typ") "/ws/b.typ",
      info.sourceFile ≠ "/ws/a.typ" :=
  C8_removeDocument_postcondition c8Db "/ws/a.typ" "/ws/b.typ" (by decide)

/-- C9: when the explicit-label scan over the whole document finds a match
for the label (case-sensitive), `findLabel` returns that match's position —
the explicit-label strategy is exhausted over the whole text before any
heading, comment or substring strategy runs. -/
theorem C9_explicit_label_precedence (text label : String) (m : RawTagMatch)
    (h : findExplicitLabel text.toList label.toList = some m) :
    findLabel text label =
      { found := true,
        position := some (labelPosOf text.toList m.startIdx),
        line := some (String.mk ((jsSplit '\n' text.toList).getD
          (labelPosOf text.toList m.startIdx).line [])) } := by
  simp only [findLabel]
  rw [h]

/-- C9 witness: a document whose first line is the heading `= Intro` and
whose second line contains the explicit label `<Intro>`; `findLabel` returns
the explicit label's position on line 1, not the heading's on line 0. -/
theorem C9_witness :
    findLabel "= Intro\nsee <Intro> here" "Intro" =
      { found := true, position := some { line := 1, character := 5 },
        line := some "see <Intro> here" } := by
  rw [C9_explicit_label_precedence "= Intro\nsee <Intro> here" "Intro"
    { name := "Intro".toList, startIdx := 12 } (by decide)]
  decide

/-- C10: once the database is initialized, `isFileIndexed` returns `true`
for every path — `getFile` translates a missing key to `null` instead of
throwing, so the `try/catch` always succeeds — and a never-indexed file is
nevertheless re-extracted only because `getLastModified` returns `null` for
it, which the `!lastIndexed` check turns into an update. -/
theorem C10_isFileIndexed_total (db : Db) (p : String) (m : Nat) (c : List Char)
    (meta : TypstMetadata) :
    svcIsFileIndexed (some db) p = true ∧
    (lookupKV db p = none →
      getLastModified db p = none ∧
      ensureFileIndexed db p m c meta = updateFileInDatabase db p m c meta) := by
  refine ⟨svcIsFileIndexed_some db p, fun h => ?_⟩
  have hlm : getLastModified db p = none := by
    unfold getLastModified
    rw [h]
    rfl
  exact ⟨hlm, ensureFileIndexed_of_none db p m c meta hlm⟩

/-- C10 witness: on the empty store, `isFileIndexed` is already `true` for a
never-indexed path, and `ensureFileIndexed` re-extracts it because
`getLastModified` is `null`. -/
theorem C10_witness :
    svcIsFileIndexed (some ([] : Db)) "/ws/x.typ" = true ∧
    (getLastModified ([] : Db) "/ws/x.typ" = none ∧
      ensureFileIndexed [] "/ws/x.typ" 3 "hi".toList ⟨none⟩ =
        updateFileInDatabase [] "/ws/x.typ" 3 "hi".toList ⟨none⟩) :=
  ⟨(C10_isFileIndexed_total [] "/ws/x.typ" 3 "hi".toList ⟨none⟩).1,
    (C10_isFileIndexed_total [] "/ws/x.typ" 3 "hi".toList ⟨none⟩).2 rfl⟩

end TypstOxide

namespace TypstOxide

/-! ## Path lemmas for the round-trip theorem -/

theorem toList_append (a b : String) : (a ++ b).toList = a.toList ++ b.toList := by
  cases a
  cases b
  rfl

theorem mk_toList (s : String) : String.mk s.toList = s := by
  cases s
  rfl

theorem eq_empty_of_toList_eq_nil {s : String} (h : s.toList = []) : s = "" := by
  cases s
  simp only [String.toList] at h
  rw [show (""  : String) = String.mk [] from rfl]
  exact congrArg String.mk h

theorem jsSplitAux_append (sep : Char) (x : List Char) :
    ∀ (acc y : List Char),
      jsSplitAux sep acc (x ++ sep :: y) = jsSplitAux sep acc x ++ jsSplitAux sep [] y := by
  induction x with
  | nil => intro acc y; simp [jsSplitAux]
  | cons c x' ih =>
      intro acc y
      by_cases h : c = sep
      · simp [jsSplitAux, h, ih]
      · simp [jsSplitAux, h, ih]

theorem jsSplitAux_no_sep (sep : Char) (x : List Char) :
    ∀ acc : List Char, sep ∉ x → jsSplitAux sep acc x = [acc.reverse ++ x] := by
  induction x with
  | nil => intro acc _; simp [jsSplitAux]
  | cons c x' ih =>
      intro acc h
      rw [List.mem_cons] at h
      push_neg at h
      have hc : ¬ c = sep := fun hh => h.1 hh.symm
      simp [jsSplitAux, hc, ih (c :: acc) h.2]

theorem splitSlash_append (a b : String) :
    splitSlash (a ++ "/" ++ b) = splitSlash a ++ splitSlash b := by
  unfold splitSlash jsSplit
  rw [toList_append, toList_append,
    show ("/" : String).toList = ['/'] from rfl,
    List.append_assoc, List.singleton_append, jsSplitAux_append, List.map_append]

theorem splitSlash_no_slash (s : String) (h : '/' ∉ s.toList) : splitSlash s = [s] := by
  unfold splitSlash jsSplit
  rw [jsSplitAux_no_sep '/' s.toList [] h]
  simp [mk_toList]

theorem splitSlash_slash_append (b : String) :
    splitSlash ("/" ++ b) = "" :: splitSlash b := by
  unfold splitSlash jsSplit
  rw [toList_append, show ("/" : String).toList = ['/'] from rfl, List.singleton_append]
  simp [jsSplitAux]

theorem splitSlash_joinSegs : ∀ (r : List String), r ≠ [] → (∀ s ∈ r, CleanSeg s) →
    splitSlash (joinSegs r) = r
  | [], h, _ => absurd rfl h
  | [s], _, hclean => by
      rw [show joinSegs [s] = s from rfl]
      exact splitSlash_no_slash s (hclean s (by simp)).2.2.2
  | s :: a :: r', _, hclean => by
      rw [show joinSegs (s :: a :: r') = s ++ "/" ++ joinSegs (a :: r') from rfl]
      rw [splitSlash_append, splitSlash_no_slash s (hclean s (by simp)).2.2.2]
      rw [splitSlash_joinSegs (a :: r') (by simp) (fun t ht => hclean t (by simp [ht]))]
      rfl

theorem normSegs_foldl_clean (v : List String) :
    ∀ (acc : List String), (∀ s ∈ v, CleanSeg s) →
      List.foldl
        (fun acc s =>
          if s = "" ∨ s = "." then acc
          else if s = ".." then acc.dropLast
          else acc ++ [s]) acc v = acc ++ v := by
  induction v with
  | nil => intro acc _; simp
  | cons s v' ih =>
      intro acc hclean
      have hs := hclean s (by simp)
      rw [List.foldl_cons,
        if_neg (by push_neg; exact ⟨hs.1, hs.2.1⟩),
        if_neg hs.2.2.1,
        ih (acc ++ [s]) (fun t ht => hclean t (by simp [ht]))]
      simp

theorem normSegs_clean (l : List String) (h : ∀ s ∈ l, CleanSeg s) :
    normSegs l = l := by
  unfold normSegs
  simpa using normSegs_foldl_clean l [] h

theorem normSegs_empty_cons (r : List String) : normSegs ("" :: r) = normSegs r := by
  unfold normSegs
  simp

theorem normSegs_splitSlash_joinAbs (l : List String) (h : ∀ s ∈ l, CleanSeg s) :
    normSegs (splitSlash (joinAbs l)) = l := by
  cases l with
  | nil => decide
  | cons s l' =>
      unfold joinAbs
      rw [splitSlash_slash_append,
        splitSlash_joinSegs (s :: l') (by simp) h,
        normSegs_empty_cons,
        normSegs_clean (s :: l') h]

theorem dropCommon_append : ∀ (l r : List String), dropCommon l (l ++ r) = ([], r)
  | [], r => by cases r <;> rfl
  | a :: l', r => by simp [dropCommon, dropCommon_append l' r]

theorem isPrefixOf_append_self (l r : List String) : l.isPrefixOf (l ++ r) = true := by
  induction l with
  | nil => simp [List.isPrefixOf]
  | cons a l' ih => simp [List.isPrefixOf, ih]

theorem isAbsolute_cons {c : Char} {cs : List Char} {p : String}
    (hp : p.toList = c :: cs) (hc : c ≠ '/') : isAbsolute p = false := by
  unfold isAbsolute
  rw [hp]
  split
  · next heq =>
      rw [List.cons.injEq] at heq
      exact absurd heq.1 hc
  · rfl

theorem isAbsolute_joinSegs (rest : List String) (h : ∀ s ∈ rest, CleanSeg s) :
    isAbsolute (joinSegs rest) = false := by
  cases rest with
  | nil => rfl
  | cons s r' =>
      have hs := h s (by simp)
      obtain ⟨t, ht⟩ : ∃ t, (joinSegs (s :: r')).toList = s.toList ++ t := by
        cases r' with
        | nil => exact ⟨[], by simp [joinSegs]⟩
        | cons a r'' =>
            refine ⟨'/' :: (joinSegs (a :: r'')).toList, ?_⟩
            rw [show joinSegs (s :: a :: r'') = s ++ "/" ++ joinSegs (a :: r'') from rfl,
              toList_append, toList_append, List.append_assoc]
            rfl
      cases hsl : s.toList with
      | nil => exact absurd (eq_empty_of_toList_eq_nil hsl) hs.1
      | cons c cs' =>
          have hc : c ≠ '/' := fun hh => hs.2.2.2 (by rw [hsl, hh]; exact List.mem_cons_self _ _)
          exact isAbsolute_cons (by rw [ht, hsl, List.cons_append]) hc

end TypstOxide

namespace TypstOxide

theorem normSegs_append (u v : List String) :
    normSegs (u ++ v) =
      List.foldl
        (fun acc s =>
          if s = "" ∨ s = "." then acc
          else if s = ".." then acc.dropLast
          else acc ++ [s]) (normSegs u) v := by
  unfold normSegs
  exact List.foldl_append _ _ _ _

/-- C3 (amended): the display round-trip re-resolves the workspace-relative
path against the source document's directory, so it recovers the canonical
path exactly when that directory is the workspace root: for a source with
`dirname src = wsRoot` and a canonical path under the workspace (both made of
plain segments), resolving the workspace-relative display path against the
source yields the canonical path again.  For sources in a subdirectory the
round-trip yields a different path (see the counterexample). -/
theorem C3_roundtrip_at_workspace_root (ws rest : List String) (src : String)
    (hdir : dirname src = joinAbs ws)
    (hws : ∀ s ∈ ws, CleanSeg s) (hrest : ∀ s ∈ rest, CleanSeg s) :
    resolveFilePath src (getWorkspaceRelativePath (joinAbs ws) (joinAbs (ws ++ rest)))
      = joinAbs (ws ++ rest) := by
  have hclean : ∀ s ∈ ws ++ rest, CleanSeg s := by
    intro s hs
    rcases List.mem_append.mp hs with h | h
    · exact hws s h
    · exact hrest s h
  have hin : inWorkspace (joinAbs ws) (joinAbs (ws ++ rest)) = true := by
    unfold inWorkspace
    rw [normSegs_splitSlash_joinAbs ws hws, normSegs_splitSlash_joinAbs _ hclean]
    exact isPrefixOf_append_self ws rest
  have hrel : getWorkspaceRelativePath (joinAbs ws) (joinAbs (ws ++ rest)) = joinSegs rest := by
    unfold getWorkspaceRelativePath
    rw [hin]
    simp only [if_true]
    unfold relativePosix
    rw [normSegs_splitSlash_joinAbs ws hws, normSegs_splitSlash_joinAbs _ hclean]
    simp [dropCommon_append]
  rw [hrel]
  unfold resolveFilePath
  rw [isAbsolute_joinSegs rest hrest]
  simp only [Bool.false_eq_true, if_false]
  unfold resolvePosix
  rw [isAbsolute_joinSegs rest hrest]
  simp only [Bool.false_eq_true, if_false]
  rw [hdir, splitSlash_append, normSegs_append, normSegs_splitSlash_joinAbs ws hws]
  cases rest with
  | nil =>
      rw [show joinSegs ([] : List String) = "" from rfl,
        show splitSlash "" = [""] from rfl]
      simp
  | cons s r' =>
      rw [splitSlash_joinSegs (s :: r') (by simp) hrest,
        normSegs_foldl_clean (s :: r') ws hrest]

/-- C3 witness: the round-trip theorem applied to the workspace `/ws`, the
source `/ws/a.typ` (whose directory is the workspace root) and the canonical
path `/ws/b.typ`. -/
theorem C3_witness :
    resolveFilePath "/ws/a.typ"
        (getWorkspaceRelativePath (joinAbs ["ws"]) (joinAbs ["ws", "b.typ"])) =
      joinAbs ["ws", "b.typ"] :=
  C3_roundtrip_at_workspace_root ["ws"] ["b.typ"] "/ws/a.typ" (by decide) (by decide)
    (by decide)

end TypstOxide
